import Mathlib

/-!
Shallow embedding of src/cookie-analyzer.js.

JavaScript strings are modelled as `List Char` (`JStr`).  JavaScript
objects used as string-keyed maps (`{}` literals) are modelled as
insertion-ordered association lists of own properties (`JsObj`) together
with the inherited members of `Object.prototype`: a property read
`m[k]` (`jsRead`) yields the own value when the key is present,
otherwise the inherited `Object.prototype` member when `k` names one
(`constructor`, `toString`, `hasOwnProperty`, `__proto__`, ...), and
only otherwise `undefined`.  `Object.keys`/`Object.values` enumerate own
enumerable properties, with array-index keys (canonical decimal numerals
below 2^32 - 1) first in ascending numeric order, then the remaining own
keys in insertion order.  Arithmetic on inherited function values
coerces them to non-numeric strings (so `Math.max` yields NaN), an
assignment to `__proto__` invokes the inherited accessor and creates no
own property, and calling `.push` on an inherited value or iterating a
non-iterable inherited value throws a TypeError that aborts the run;
these outcomes are captured by `Except JsCrash`.
-/

/-- JavaScript string, modelled as a list of characters. -/
abbrev JStr := List Char

/-- Own properties of a JavaScript object used as a string-keyed map:
insertion-ordered association list. -/
abbrev JsObj (α : Type) := List (JStr × α)

/-- Worker for `jsSplit`: accumulates the current field (reversed). -/
def jsSplitGo (sep : Char) : JStr → JStr → List JStr
  | [], acc => [acc.reverse]
  | c :: cs, acc =>
      if c = sep then acc.reverse :: jsSplitGo sep cs []
      else jsSplitGo sep cs (c :: acc)

/-- JavaScript `String.prototype.split` with a single-character
separator: always returns a non-empty list of fields. -/
def jsSplit (sep : Char) (s : JStr) : List JStr := jsSplitGo sep s []

/-- Whitespace characters removed by JavaScript `String.prototype.trim`
(the ASCII ones, which are the only ones the log format can contain). -/
def isJsSpace (c : Char) : Bool :=
  decide (c = ' ') || decide (c = Char.ofNat 9) || decide (c = Char.ofNat 10) ||
  decide (c = Char.ofNat 13) || decide (c = Char.ofNat 11) || decide (c = Char.ofNat 12)

/-- JavaScript `String.prototype.trim`. -/
def jsTrim (s : JStr) : JStr :=
  ((s.dropWhile isJsSpace).reverse.dropWhile isJsSpace).reverse

/-- Numeric value of a digit string (used to model JS array-index key
ordering). -/
def charsToNat (s : JStr) : Nat :=
  s.foldl (fun a c => a * 10 + (c.toNat - 48)) 0

/-- Whether a JS property key is an array index: a canonical decimal
numeral whose value is below 2^32 - 1 (ECMA-262 array index).  Such own
keys are enumerated before all other own keys, in ascending numeric
order. -/
def isArrayIndexKey (k : JStr) : Bool :=
  decide (k ≠ []) && k.all Char.isDigit &&
  (decide (k.length = 1) || decide (k.headD '0' ≠ '0')) &&
  decide (charsToNat k < 4294967295)

/-- Insert into a list sorted ascending by the measure `f`. -/
def insertAsc (f : JStr → Nat) (x : JStr) : List JStr → List JStr
  | [] => [x]
  | y :: ys => if f x ≤ f y then x :: y :: ys else y :: insertAsc f x ys

/-- Sort ascending by the measure `f` (insertion sort). -/
def sortAsc (f : JStr → Nat) : List JStr → List JStr
  | [] => []
  | x :: xs => insertAsc f x (sortAsc f xs)

/-- Own-property lookup on the association list.  This is not the full
JS property read: `m[k]` also consults the `Object.prototype` chain, see
`jsRead` below.  `jsGet` alone is faithful only where the program
guarantees an own key (e.g. iterating `Object.keys`). -/
def jsGet : JsObj α → JStr → Option α
  | [], _ => none
  | (k', v) :: rest, k => if k = k' then some v else jsGet rest k

/-- Own-property write: updates in place (keeping the key's insertion
position) or appends a new own key at the end.  The one key for which a
JS assignment does not behave like this is `__proto__` (an inherited
accessor); the call sites that can receive it handle it explicitly. -/
def jsSet : JsObj α → JStr → α → JsObj α
  | [], k, v => [(k, v)]
  | (k', v') :: rest, k, v =>
      if k = k' then (k', v) :: rest else (k', v') :: jsSet rest k v

/-- The own keys of the association list, in insertion order. -/
def keysList (m : JsObj α) : List JStr := m.map Prod.fst

/-- JavaScript `Object.keys` enumeration order over the own enumerable
properties: array-index keys in ascending numeric order first, then the
remaining keys in insertion order.  Inherited `Object.prototype`
members are not own properties and never appear here. -/
def jsKeys (m : JsObj α) : List JStr :=
  sortAsc charsToNat ((keysList m).filter (fun k => isArrayIndexKey k)) ++
  (keysList m).filter (fun k => !isArrayIndexKey k)

/-- JavaScript `Object.values`, in the same enumeration order as
`Object.keys`. -/
def jsValues (m : JsObj α) : List α :=
  (jsKeys m).filterMap (fun k => jsGet m k)

/-! ## The Object.prototype chain -/

/-- An inherited member of `Object.prototype`: a function-valued data
property carrying its name and arity (`fn.length`), or the `__proto__`
accessor whose getter returns the `Object.prototype` object itself. -/
inductive ProtoMember where
  | fn (name : JStr) (arity : Nat)
  | protoAccessor
deriving DecidableEq

/-- The string-keyed members a `{}` literal inherits from
`Object.prototype` (Node/V8): each function with its name and arity.
`constructor` is the `Object` function (arity 1); `toString`,
`toLocaleString` and `valueOf` have arity 0; `__proto__` is the
accessor. -/
def protoLookup (k : JStr) : Option ProtoMember :=
  if k = "constructor".data then some (ProtoMember.fn "Object".data 1)
  else if k = "toString".data then some (ProtoMember.fn "toString".data 0)
  else if k = "toLocaleString".data then some (ProtoMember.fn "toLocaleString".data 0)
  else if k = "valueOf".data then some (ProtoMember.fn "valueOf".data 0)
  else if k = "hasOwnProperty".data then some (ProtoMember.fn "hasOwnProperty".data 1)
  else if k = "isPrototypeOf".data then some (ProtoMember.fn "isPrototypeOf".data 1)
  else if k = "propertyIsEnumerable".data then some (ProtoMember.fn "propertyIsEnumerable".data 1)
  else if k = "__defineGetter__".data then some (ProtoMember.fn "__defineGetter__".data 2)
  else if k = "__defineSetter__".data then some (ProtoMember.fn "__defineSetter__".data 2)
  else if k = "__lookupGetter__".data then some (ProtoMember.fn "__lookupGetter__".data 1)
  else if k = "__lookupSetter__".data then some (ProtoMember.fn "__lookupSetter__".data 1)
  else if k = "__proto__".data then some ProtoMember.protoAccessor
  else none

/-- Result of the full JS property read `m[k]` on a `{}` object: the own
value when present, otherwise the inherited `Object.prototype` member
when the key names one, otherwise `undefined`. -/
inductive PropRead (α : Type) where
  | own (v : α)
  | inherited (pm : ProtoMember)
  | undef

/-- The full JS property read `m[k]`. -/
def jsRead (m : JsObj α) (k : JStr) : PropRead α :=
  match jsGet m k with
  | some v => PropRead.own v
  | none =>
      match protoLookup k with
      | some pm => PropRead.inherited pm
      | none => PropRead.undef

/-- `Function.prototype.toString` of a native function (V8 form), the
string a function coerces to in `fn + 1`. -/
def nativeFnString (name : JStr) : JStr :=
  "function ".data ++ name ++ "() ".data ++ [Char.ofNat 123] ++
    " [native code] ".data ++ [Char.ofNat 125]

/-- A value stored into the frequency map by the counting loop: a
number, or — once a cookie name collided with an inherited member — a
string produced by the `+ 1` coercion.  Every such string begins with
"function " or "[object", so it is never a numeric literal. -/
inductive JsVal where
  | num (n : Nat)
  | str (s : JStr)
deriving DecidableEq

/-- Result of `Math.max(...)`: NaN when any argument coerces to NaN,
-Infinity on no arguments, otherwise a number. -/
inductive MaxVal where
  | nan
  | negInf
  | num (n : Nat)
deriving DecidableEq

/-- An uncaught TypeError that terminates the run (non-zero exit, no
further output). -/
inductive JsCrash where
  | typeError
deriving DecidableEq

/-- Whether a frequency-map value is one of the coerced strings. -/
def isStrVal : JsVal → Bool
  | JsVal.str _ => true
  | JsVal.num _ => false

/-- The numeric payload of a frequency-map value, when it is one. -/
def numOf : JsVal → Option Nat
  | JsVal.num n => some n
  | JsVal.str _ => none

/-- `Math.max(...vs)`: the strings stored by this program are never
numeric literals, so any string argument coerces to NaN and poisons the
maximum; no arguments give -Infinity; otherwise the numeric maximum. -/
def mathMax (vs : List JsVal) : MaxVal :=
  if vs.any isStrVal then MaxVal.nan
  else if vs = [] then MaxVal.negInf
  else MaxVal.num ((vs.filterMap numOf).foldl Nat.max 0)

/-- JS strict equality `v === mx` between a read frequency value and
`maxFreq`: true only for equal numbers — `NaN === x` is false for every
`x` (including NaN), no stored value is -Infinity, and a string is never
strictly equal to a number. -/
def strictEqMax (v : Option JsVal) (mx : MaxVal) : Bool :=
  match v, mx with
  | some (JsVal.num n), MaxVal.num k => decide (n = k)
  | _, _ => false

/-! ## ProcessLogs (frequency ranker) -/

/-- One iteration of the counting loop in `ProcessLogs.#analyzeLogs`:
`freqMap[cookie] = (freqMap[cookie] ?? 0) + 1` with the full
property-read semantics.  An own number increments; an own coerced
string gains a "1" suffix; an inherited function or the `__proto__`
getter result is not nullish, so `?? 0` keeps it and `+ 1` coerces it to
a non-numeric string; only a genuinely absent key starts at 0.  The
assignment creates or updates an own property except for the key
`__proto__`, whose inherited setter receives the (primitive) value and
changes nothing. -/
def freqStep (m : JsObj JsVal) (cookie : JStr) : JsObj JsVal :=
  let v : JsVal :=
    match jsRead m cookie with
    | PropRead.own (JsVal.num n) => JsVal.num (n + 1)
    | PropRead.own (JsVal.str s) => JsVal.str (s ++ "1".data)
    | PropRead.inherited (ProtoMember.fn name _) =>
        JsVal.str (nativeFnString name ++ "1".data)
    | PropRead.inherited ProtoMember.protoAccessor =>
        JsVal.str ("[object Object]".data ++ "1".data)
    | PropRead.undef => JsVal.num 1
  if cookie = "__proto__".data then m else jsSet m cookie v

/-- The frequency map built by `ProcessLogs.#analyzeLogs` from one
date's cookie sequence. -/
def freqFold (logs : List JStr) : JsObj JsVal := logs.foldl freqStep []

/-- The `maxFreq` of `ProcessLogs.#analyzeLogs`:
`Math.max(...Object.values(freqMap))`. -/
def maxFreqOf (logs : List JStr) : MaxVal :=
  mathMax (jsValues (freqFold logs))

/-- The winner computation of `ProcessLogs.#analyzeLogs` on a non-empty
bucket: `Object.keys(freqMap).filter(c => freqMap[c] === maxFreq)`.
The filtered keys are own keys, so the read inside the filter always
hits the own property. -/
def winnersOf (logs : List JStr) : List JStr :=
  (jsKeys (freqFold logs)).filter
    (fun c => strictEqMax (jsGet (freqFold logs) c) (maxFreqOf logs))

/-- `ProcessLogs.#analyzeLogs`: reads `logMap[date]` with the full
property semantics, then guards with `!logs || logs.length === 0`.
`undefined` and an own empty array take the no-data branch (message
printed, `null` returned, modelled `Except.ok none`); an own non-empty
array is ranked; an absent date naming an inherited arity-0 function
(`toString`, `toLocaleString`, `valueOf`: `.length === 0`) also takes
the no-data branch; an inherited function of positive arity or the
`__proto__` getter result passes the guard and the `for...of` loop
throws TypeError (functions and plain objects are not iterable). -/
def analyzeLogs (logMap : JsObj (List JStr)) (date : JStr) :
    Except JsCrash (Option (List JStr)) :=
  match jsRead logMap date with
  | PropRead.undef => Except.ok none
  | PropRead.own logs =>
      if logs = [] then Except.ok none else Except.ok (some (winnersOf logs))
  | PropRead.inherited (ProtoMember.fn _ 0) => Except.ok none
  | PropRead.inherited (ProtoMember.fn _ (_ + 1)) => Except.error JsCrash.typeError
  | PropRead.inherited ProtoMember.protoAccessor => Except.error JsCrash.typeError

/-- The message `ProcessLogs.#analyzeLogs` prints when the no-data
branch is taken. -/
def noDataMessage : JStr :=
  "There are no cookies for this date. Please make sure the date is formatted YYYY-MM-DD".data

/-- Standard-output lines of `ProcessLogs.findMostUsedCookie` once
parsing has produced `parsedLogs`: the no-data message when
`#analyzeLogs` returned `null`, otherwise one line per winner (an empty
winners array is truthy in `if (analyzedLogs)`, so it prints no lines
and no message); a TypeError propagates. -/
def findMostUsedCookie (parsedLogs : JsObj (List JStr)) (date : JStr) :
    Except JsCrash (List JStr) :=
  match analyzeLogs parsedLogs date with
  | Except.error e => Except.error e
  | Except.ok none => Except.ok [noDataMessage]
  | Except.ok (some winners) => Except.ok winners

/-! ## ProcessCsvLogs (record parser / date bucketer) -/

/-- Date key derived from a timestamp: `timestamp.split('T')[0]`. -/
def dateOf (ts : JStr) : JStr := (jsSplit 'T' ts).headD []

/-- Field extraction of one data line:
`const [cookie, timestamp] = line.split(',')` followed by the guard
`if (!cookie || !timestamp) continue`.  Returns the surviving
(cookie, timestamp) pair, `none` for a dropped line. -/
def lineRecord (line : JStr) : Option (JStr × JStr) :=
  match ((jsSplit ',' line).drop 1).head? with
  | none => none
  | some ts =>
      if (jsSplit ',' line).headD [] = [] ∨ ts = [] then none
      else some ((jsSplit ',' line).headD [], ts)

/-- One iteration of the bucketing loop in
`ProcessCsvLogs.parseFileContent`: `if (!logMap[date]) logMap[date] = []`
then `logMap[date].push(cookie)`, with the full property-read
semantics.  An own array (always truthy) is pushed onto; an inherited
member is truthy, so the array is not created and `.push` on the
function or on `Object.prototype` throws TypeError; only `undefined`
creates the own array first (so the `logMap[date] = []` assignment never
targets `__proto__`, whose inherited read is truthy). -/
def csvStep (m : JsObj (List JStr)) (line : JStr) :
    Except JsCrash (JsObj (List JStr)) :=
  match lineRecord line with
  | none => Except.ok m
  | some (cookie, ts) =>
      match jsRead m (dateOf ts) with
      | PropRead.own b => Except.ok (jsSet m (dateOf ts) (b ++ [cookie]))
      | PropRead.inherited _ => Except.error JsCrash.typeError
      | PropRead.undef =>
          Except.ok (jsSet (jsSet m (dateOf ts) []) (dateOf ts) ([] ++ [cookie]))

/-- The loop of `ProcessCsvLogs.parseFileContent` over the data lines:
an uncaught TypeError aborts the remaining iterations. -/
def csvFold : List JStr → JsObj (List JStr) → Except JsCrash (JsObj (List JStr))
  | [], m => Except.ok m
  | line :: ls, m =>
      match csvStep m line with
      | Except.error e => Except.error e
      | Except.ok m₂ => csvFold ls m₂

/-- The loop of `ProcessCsvLogs.parseFileContent` starting at index 1,
skipping the header line. -/
def parseCsvLines (lines : List JStr) : Except JsCrash (JsObj (List JStr)) :=
  csvFold (lines.drop 1) []

/-- `ProcessCsvLogs.parseFileContent`:
`content.trim().split('\n')` then the bucketing loop from index 1. -/
def parseFileContent (content : JStr) : Except JsCrash (JsObj (List JStr)) :=
  parseCsvLines (jsSplit (Char.ofNat 10) (jsTrim content))

/-! ## App (argument parsing, dispatch, file reading) -/

/-- ASCII lowering of one character, modelling `toLowerCase` on the
file-extension strings this program compares. -/
def asciiLower (c : Char) : Char :=
  if 'A' ≤ c ∧ c ≤ 'Z' then Char.ofNat (c.toNat + 32) else c

/-- `App.#getFileExtension`:
`fileName.split('.').pop().toLowerCase()`. -/
def getFileExtension (fileName : JStr) : JStr :=
  ((jsSplit '.' fileName).getLastD []).map asciiLower

/-- `ProcessLogs.parseFileContent`, the base-class no-op parser selected
for any non-`csv` extension: returns the empty map regardless of
content. -/
def baseParseFileContent (_content : JStr) : JsObj (List JStr) := []

/-- The dispatch in `App.main` after the file has been read: `csv`
selects `ProcessCsvLogs`, anything else the base `ProcessLogs`.
Returns the standard-output lines and the process exit code on a normal
return (`main` falls through, so the process exits 0); an uncaught
TypeError instead terminates the process with a non-zero status and no
further output. -/
def mainDispatch (fileName content date : JStr) :
    Except JsCrash (List JStr × Nat) :=
  if getFileExtension fileName = "csv".data then
    match parseFileContent content with
    | Except.error e => Except.error e
    | Except.ok m =>
        match findMostUsedCookie m date with
        | Except.error e => Except.error e
        | Except.ok out => Except.ok (out, 0)
  else
    match findMostUsedCookie (baseParseFileContent content) date with
    | Except.error e => Except.error e
    | Except.ok out => Except.ok (out, 0)

/-- First line printed by the catch block of `App.#retrieveFileContent`:
`Error: Cannot read file '<fileName>'`. -/
def cannotReadMsg (fileName : JStr) : JStr :=
  "Error: Cannot read file ".data ++ [Char.ofNat 39] ++ fileName ++ [Char.ofNat 39]

/-- Outcome of `App.#retrieveFileContent`. -/
inductive RetrieveOutcome where
  | success (content : JStr)
  | cleanExit (code : Nat) (stderrLines : List JStr)
  | refErrorCrash (stderrLines : List JStr)
deriving DecidableEq

/-- `App.#retrieveFileContent`: on a read failure the catch block binds
the exception as `e` but then evaluates `error.message`, where `error`
is an unbound identifier; after printing the first stderr line this
raises a ReferenceError, so the second `console.error` and
`process.exit(1)` never run.  Modelled as `refErrorCrash` carrying the
stderr lines printed before the crash; the underlying system message
(the payload of `Except.error`) is never printed. -/
def retrieveFileContent (fileName : JStr) (fsRead : Except JStr JStr) : RetrieveOutcome :=
  match fsRead with
  | Except.ok content => RetrieveOutcome.success content
  | Except.error _ => RetrieveOutcome.refErrorCrash [cannotReadMsg fileName]

/-- `Utilities.chunk`: consecutive groups of `size` elements (the JS
loop pushes element `i` into chunk `floor(i/size)`); degenerate sizes
never arise (the program only calls it with size 2). -/
def chunk : List α → Nat → List (List α)
  | [], _ => []
  | _ :: _, 0 => []
  | x :: xs, n + 1 => (x :: xs).take (n + 1) :: chunk ((x :: xs).drop (n + 1)) (n + 1)
termination_by l _ => l.length
decreasing_by
  simp only [List.drop_succ_cons, List.length_cons, List.length_drop]
  omega

/-- The argument map built by `App.#parseArguments`:
`fileName` from `-f`, `timeStamp` from `-d`; a field is `none` when the
flag never occurred or its value slot was missing (`undefined`). -/
structure ArgMap where
  fileName : Option JStr
  timeStamp : Option JStr
deriving DecidableEq

/-- One iteration of the loop in `App.#parseArguments` over a chunk
`[key, value?]`: keys outside the `PARAMETERS` table (`-f`, `-d`) write
nothing the program ever reads (an inherited `PARAMETERS` lookup such as
`PARAMETERS["constructor"]` stores the value under a coerced junk key
distinct from `fileName`/`timeStamp`), so they leave both tracked fields
unchanged. -/
def parseArgStep (m : ArgMap) (pair : List JStr) : ArgMap :=
  if pair.headD [] = "-f".data then { m with fileName := (pair.drop 1).head? }
  else if pair.headD [] = "-d".data then { m with timeStamp := (pair.drop 1).head? }
  else m

/-- `App.#parseArguments`: chunks the argument list into pairs and folds
them into the argument map. -/
def parseArguments (args : List JStr) : ArgMap :=
  (chunk args 2).foldl parseArgStep (ArgMap.mk none none)

/-! ## Specification-side definitions (used only in theorem statements) -/

/-- Specification-side: the distinct elements of a list in order of
first occurrence. -/
def firstOccur (ls : List JStr) : List JStr :=
  ls.foldl (fun acc c => if c ∈ acc then acc else acc ++ [c]) []

/-- Specification-side: the maximum occurrence count over a date's
cookie sequence. -/
def maxCount (logs : List JStr) : Nat :=
  (logs.map (fun c => logs.count c)).foldl Nat.max 0

/-- Specification-side: the winners as the spec words them — every
distinct cookieId whose count equals the maximum, in first-occurrence
order within the date's sequence. -/
def specWinners (logs : List JStr) : List JStr :=
  (firstOccur logs).filter (fun c => decide (logs.count c = maxCount logs))

/-- Specification-side: the cookies a date's bucket should contain —
those of the surviving data lines whose derived date matches, in input
order. -/
def bucketSpec (dataLines : List JStr) (d : JStr) : List JStr :=
  dataLines.filterMap (fun line =>
    match lineRecord line with
    | none => none
    | some (cookie, ts) => if dateOf ts = d then some cookie else none)

/-- Specification-side: whether a data line's derived date avoids the
inherited `Object.prototype` member names (dropped lines are vacuously
safe). -/
def lineDateSafe (line : JStr) : Bool :=
  match lineRecord line with
  | some (_, ts) => decide (protoLookup (dateOf ts) = none)
  | none => true

/-- Specification-side: the value of the last pair whose flag matches,
among the positional pairs. -/
def lastValueFor (flag : JStr) (pairs : List (List JStr)) : Option JStr :=
  (pairs.reverse.find? (fun p => decide (p.headD [] = flag))).bind
    (fun p => (p.drop 1).head?)

/-- Proof-layer helper: the numeric payload of an optional frequency
value, defaulting to 0 (only used where no coerced string can occur). -/
def numGetD : Option JsVal → Nat
  | some (JsVal.num n) => n
  | some (JsVal.str _) => 0
  | none => 0

/-- Proof-layer helper: the value `(freqMap[c] ?? 0) + 1` stores for a
cookie that does not collide with an inherited member. -/
def bumpVal : Option JsVal → JsVal
  | some (JsVal.num n) => JsVal.num (n + 1)
  | some (JsVal.str s) => JsVal.str (s ++ "1".data)
  | none => JsVal.num 1

instance {ε α : Type} [DecidableEq ε] [DecidableEq α] : DecidableEq (Except ε α) :=
  fun x y =>
    match x, y with
    | Except.ok a, Except.ok b =>
        if h : a = b then isTrue (by rw [h])
        else isFalse (fun hc => h (Except.ok.inj hc))
    | Except.error e, Except.error f =>
        if h : e = f then isTrue (by rw [h])
        else isFalse (fun hc => h (Except.error.inj hc))
    | Except.ok _, Except.error _ => isFalse (fun hc => Except.noConfusion hc)
    | Except.error _, Except.ok _ => isFalse (fun hc => Except.noConfusion hc)

/-! ## Lemmas about the JS object model -/

theorem jsGet_jsSet (m : JsObj α) (k k' : JStr) (v : α) :
    jsGet (jsSet m k v) k' = if k' = k then some v else jsGet m k' := by
  induction m with
  | nil => by_cases h : k' = k <;> simp [jsSet, jsGet, h]
  | cons p rest ih =>
      obtain ⟨k₀, v₀⟩ := p
      by_cases hk : k = k₀
      · subst hk
        by_cases h : k' = k <;> simp [jsSet, jsGet, h]
      · by_cases h : k' = k₀
        · subst h
          have hne : k' ≠ k := fun he => hk he.symm
          simp [jsSet, hk, jsGet, hne]
        · simp [jsSet, hk, jsGet, h, ih]

theorem keysList_cons (k₀ : JStr) (v₀ : α) (rest : JsObj α) :
    keysList ((k₀, v₀) :: rest) = k₀ :: keysList rest := rfl

theorem jsGet_eq_none_iff (m : JsObj α) (k : JStr) :
    jsGet m k = none ↔ k ∉ keysList m := by
  induction m with
  | nil => simp [jsGet, keysList]
  | cons p rest ih =>
      obtain ⟨k₀, v₀⟩ := p
      by_cases h : k = k₀
      · subst h
        simp [jsGet, keysList_cons]
      · simp only [jsGet, if_neg h]
        rw [ih, keysList_cons]
        simp [h]

theorem keysList_jsSet (m : JsObj α) (k : JStr) (v : α) :
    keysList (jsSet m k v) =
      if k ∈ keysList m then keysList m else keysList m ++ [k] := by
  induction m with
  | nil => simp [jsSet, keysList]
  | cons p rest ih =>
      obtain ⟨k₀, v₀⟩ := p
      by_cases h : k = k₀
      · subst h
        simp [jsSet, keysList_cons]
      · simp only [jsSet, if_neg h, keysList_cons, ih, List.mem_cons]
        by_cases hmem : k ∈ keysList rest
        · simp [hmem, h]
        · simp [hmem, h]

/-! ## Lemmas about first-occurrence order, enumeration and maxima -/

theorem mem_foldl_dedup (ls : List JStr) :
    ∀ (acc : List JStr) (x : JStr),
      x ∈ ls.foldl (fun acc c => if c ∈ acc then acc else acc ++ [c]) acc ↔
        x ∈ acc ∨ x ∈ ls := by
  induction ls with
  | nil => simp
  | cons a ls ih =>
      intro acc x
      rw [List.foldl_cons]
      by_cases ha : a ∈ acc
      · rw [if_pos ha, ih]
        constructor
        · rintro (h | h)
          · exact Or.inl h
          · exact Or.inr (List.mem_cons_of_mem _ h)
        · rintro (h | h)
          · exact Or.inl h
          · rcases List.mem_cons.mp h with h | h
            · exact Or.inl (h ▸ ha)
            · exact Or.inr h
      · rw [if_neg ha, ih]
        simp only [List.mem_append, List.mem_singleton, List.mem_cons]
        tauto

theorem nodup_foldl_dedup (ls : List JStr) :
    ∀ acc : List JStr, acc.Nodup →
      (ls.foldl (fun acc c => if c ∈ acc then acc else acc ++ [c]) acc).Nodup := by
  induction ls with
  | nil => intro acc h; exact h
  | cons a ls ih =>
      intro acc hacc
      rw [List.foldl_cons]
      by_cases ha : a ∈ acc
      · rw [if_pos ha]; exact ih _ hacc
      · rw [if_neg ha]
        refine ih _ ?_
        simp [List.nodup_append, hacc, ha]

theorem firstOccur_mem (ls : List JStr) (x : JStr) :
    x ∈ firstOccur ls ↔ x ∈ ls := by
  rw [firstOccur, mem_foldl_dedup]
  simp

theorem firstOccur_nodup (ls : List JStr) : (firstOccur ls).Nodup :=
  nodup_foldl_dedup ls [] List.nodup_nil

theorem insertAsc_perm (f : JStr → Nat) (x : JStr) (l : List JStr) :
    (insertAsc f x l).Perm (x :: l) := by
  induction l with
  | nil => exact List.Perm.refl _
  | cons y ys ih =>
      by_cases h : f x ≤ f y
      · rw [insertAsc, if_pos h]
      · rw [insertAsc, if_neg h]
        exact (ih.cons y).trans (List.Perm.swap x y ys)

theorem sortAsc_perm (f : JStr → Nat) (l : List JStr) :
    (sortAsc f l).Perm l := by
  induction l with
  | nil => exact List.Perm.refl _
  | cons x xs ih =>
      exact (insertAsc_perm f x (sortAsc f xs)).trans (ih.cons x)

theorem jsKeys_perm (m : JsObj α) : (jsKeys m).Perm (keysList m) := by
  rw [jsKeys]
  exact ((sortAsc_perm charsToNat _).append_right _).trans
    (List.filter_append_perm _ _)

theorem mem_jsKeys (m : JsObj α) (k : JStr) :
    k ∈ jsKeys m ↔ k ∈ keysList m :=
  (jsKeys_perm m).mem_iff

theorem mem_jsValues (m : JsObj α) (v : α) :
    v ∈ jsValues m ↔ ∃ k, k ∈ jsKeys m ∧ jsGet m k = some v := by
  simp [jsValues, List.mem_filterMap]

theorem le_foldl_max (l : List Nat) (a : Nat) : a ≤ l.foldl Nat.max a := by
  induction l generalizing a with
  | nil => exact Nat.le_refl a
  | cons x l ih => exact Nat.le_trans (Nat.le_max_left a x) (ih (Nat.max a x))

theorem mem_le_foldl_max (l : List Nat) (a : Nat) :
    ∀ x ∈ l, x ≤ l.foldl Nat.max a := by
  induction l generalizing a with
  | nil => intro x hx; cases hx
  | cons y l ih =>
      intro x hx
      rcases List.mem_cons.mp hx with h | h
      · subst h
        exact Nat.le_trans (Nat.le_max_right a x) (le_foldl_max l (Nat.max a x))
      · exact ih (Nat.max a y) x h

theorem foldl_max_eq_or_mem (l : List Nat) :
    ∀ a, l.foldl Nat.max a = a ∨ l.foldl Nat.max a ∈ l := by
  induction l with
  | nil => intro a; exact Or.inl rfl
  | cons x l ih =>
      intro a
      rcases ih (Nat.max a x) with h | h
      · rw [List.foldl_cons, h]
        rcases Nat.le_total a x with hle | hle
        · have hx : Nat.max a x = x := by
            rw [Nat.max_eq_max, max_eq_right hle]
          rw [hx]
          exact Or.inr (List.mem_cons_self _ _)
        · have hx : Nat.max a x = a := by
            rw [Nat.max_eq_max, max_eq_left hle]
          rw [hx]
          exact Or.inl rfl
      · exact Or.inr (List.mem_cons_of_mem _ h)

/-! ## Lemmas about the frequency map -/

theorem ne_proto_of_protoLookup_none (c : JStr) (h : protoLookup c = none) :
    c ≠ "__proto__".data := by
  intro he
  rw [he] at h
  exact absurd h (by decide)

theorem freqStep_of_no_proto (m : JsObj JsVal) (c : JStr)
    (hp : protoLookup c = none) :
    freqStep m c = jsSet m c (bumpVal (jsGet m c)) := by
  have hnp : c ≠ "__proto__".data := ne_proto_of_protoLookup_none c hp
  cases hv : jsGet m c with
  | none => simp [freqStep, jsRead, hv, hp, hnp, bumpVal]
  | some v =>
      cases v with
      | num n => simp [freqStep, jsRead, hv, hnp, bumpVal]
      | str s => simp [freqStep, jsRead, hv, hnp, bumpVal]

theorem jsGet_foldl_freqStep (ls : List JStr) :
    ∀ (m : JsObj JsVal) (c : JStr),
      (∀ x, x ∈ ls → protoLookup x = none) →
      (∀ x v, x ∈ ls → jsGet m x = some v → ∃ n, v = JsVal.num n) →
      jsGet (ls.foldl freqStep m) c =
        if c ∈ ls then some (JsVal.num (numGetD (jsGet m c) + ls.count c))
        else jsGet m c := by
  induction ls with
  | nil => simp
  | cons a ls ih =>
      intro m c hpl hnum
      have hpa : protoLookup a = none := hpl a (List.mem_cons_self _ _)
      have hstep : ∀ c', jsGet (freqStep m a) c' =
          if c' = a then some (bumpVal (jsGet m a)) else jsGet m c' := by
        intro c'
        rw [freqStep_of_no_proto m a hpa, jsGet_jsSet]
      have hnum' : ∀ x v, x ∈ ls → jsGet (freqStep m a) x = some v →
          ∃ n, v = JsVal.num n := by
        intro x v hx hgx
        rw [hstep x] at hgx
        by_cases hxa : x = a
        · rw [if_pos hxa] at hgx
          cases hv : jsGet m a with
          | none =>
              rw [hv] at hgx
              exact ⟨1, (Option.some_injective _ hgx).symm⟩
          | some w =>
              obtain ⟨n, rfl⟩ := hnum a w (List.mem_cons_self _ _) hv
              rw [hv] at hgx
              exact ⟨n + 1, (Option.some_injective _ hgx).symm⟩
        · rw [if_neg hxa] at hgx
          exact hnum x v (List.mem_cons_of_mem _ hx) hgx
      rw [List.foldl_cons,
        ih (freqStep m a) c (fun x hx => hpl x (List.mem_cons_of_mem _ hx)) hnum']
      by_cases hca : c = a
      · subst hca
        have hbv : bumpVal (jsGet m c) = JsVal.num (numGetD (jsGet m c) + 1) := by
          cases hv : jsGet m c with
          | none => simp [bumpVal, numGetD]
          | some w =>
              obtain ⟨n, rfl⟩ := hnum c w (List.mem_cons_self _ _) hv
              simp [bumpVal, numGetD]
        by_cases hcl : c ∈ ls
        · rw [if_pos hcl, hstep c, if_pos rfl, hbv,
            if_pos (List.mem_cons_self _ _), List.count_cons_self]
          simp only [numGetD, Option.some.injEq, JsVal.num.injEq]
          omega
        · rw [if_neg hcl, hstep c, if_pos rfl, hbv,
            if_pos (List.mem_cons_self _ _), List.count_cons_self,
            List.count_eq_zero_of_not_mem hcl]
      · rw [hstep c, if_neg hca]
        by_cases hcl : c ∈ ls
        · rw [if_pos hcl, if_pos (List.mem_cons_of_mem _ hcl),
            List.count_cons_of_ne hca]
        · have hncl : c ∉ a :: ls := by
            intro hmem
            rcases List.mem_cons.mp hmem with h | h
            · exact hca h
            · exact hcl h
          rw [if_neg hcl, if_neg hncl]

theorem jsGet_freqFold (logs : List JStr) (c : JStr)
    (hls : ∀ x, x ∈ logs → protoLookup x = none) :
    jsGet (freqFold logs) c =
      if c ∈ logs then some (JsVal.num (logs.count c)) else none := by
  rw [freqFold, jsGet_foldl_freqStep logs [] c hls (by intro x v _ hx; cases hx)]
  by_cases hc : c ∈ logs
  · rw [if_pos hc, if_pos hc]
    simp [jsGet, numGetD]
  · rw [if_neg hc, if_neg hc]
    rfl

theorem keysList_foldl_freqStep (ls : List JStr) :
    ∀ m : JsObj JsVal,
      (∀ x, x ∈ ls → protoLookup x = none) →
      keysList (ls.foldl freqStep m) =
        ls.foldl (fun acc c => if c ∈ acc then acc else acc ++ [c]) (keysList m) := by
  induction ls with
  | nil => intro m _; rfl
  | cons a ls ih =>
      intro m hpl
      rw [List.foldl_cons, List.foldl_cons,
        ih (freqStep m a) (fun x hx => hpl x (List.mem_cons_of_mem _ hx))]
      congr 1
      rw [freqStep_of_no_proto m a (hpl a (List.mem_cons_self _ _)), keysList_jsSet]

theorem keysList_freqFold (logs : List JStr)
    (hls : ∀ x, x ∈ logs → protoLookup x = none) :
    keysList (freqFold logs) = firstOccur logs := by
  rw [freqFold, keysList_foldl_freqStep logs [] hls]
  rfl

/-! ## Lemmas about the winner computation -/

theorem mem_keysList_freqFold (logs : List JStr) (c : JStr)
    (hls : ∀ x, x ∈ logs → protoLookup x = none) :
    c ∈ keysList (freqFold logs) ↔ c ∈ logs := by
  rw [keysList_freqFold logs hls, firstOccur_mem]

theorem mem_jsValues_freqFold (logs : List JStr) (v : JsVal)
    (hls : ∀ x, x ∈ logs → protoLookup x = none) :
    v ∈ jsValues (freqFold logs) ↔
      ∃ c, c ∈ logs ∧ v = JsVal.num (logs.count c) := by
  rw [mem_jsValues]
  constructor
  · rintro ⟨k, hk, hget⟩
    have hkl : k ∈ logs := by
      rw [mem_jsKeys, mem_keysList_freqFold logs k hls] at hk
      exact hk
    rw [jsGet_freqFold logs k hls, if_pos hkl] at hget
    exact ⟨k, hkl, (Option.some_injective _ hget).symm⟩
  · rintro ⟨c, hc, rfl⟩
    refine ⟨c, ?_, ?_⟩
    · rw [mem_jsKeys, mem_keysList_freqFold logs c hls]
      exact hc
    · rw [jsGet_freqFold logs c hls, if_pos hc]

theorem maxFreqOf_num (logs : List JStr) (hne : logs ≠ [])
    (hls : ∀ x, x ∈ logs → protoLookup x = none) :
    ∃ M, maxFreqOf logs = MaxVal.num M ∧
      (∀ c, c ∈ logs → logs.count c ≤ M) ∧
      ∃ c₀, c₀ ∈ logs ∧ logs.count c₀ = M := by
  obtain ⟨a, ha⟩ : ∃ a, a ∈ logs := by
    cases logs with
    | nil => exact absurd rfl hne
    | cons x xs => exact ⟨x, List.mem_cons_self _ _⟩
  have hbound : ∀ c, c ∈ logs →
      logs.count c ≤ ((jsValues (freqFold logs)).filterMap numOf).foldl Nat.max 0 := by
    intro c hc
    refine mem_le_foldl_max _ _ _ ?_
    rw [List.mem_filterMap]
    exact ⟨JsVal.num (logs.count c),
      (mem_jsValues_freqFold logs _ hls).mpr ⟨c, hc, rfl⟩, rfl⟩
  have hany : (jsValues (freqFold logs)).any isStrVal = false := by
    rw [List.any_eq_false]
    intro v hv
    obtain ⟨c, _, rfl⟩ := (mem_jsValues_freqFold logs v hls).mp hv
    simp [isStrVal]
  have hvne : jsValues (freqFold logs) ≠ [] :=
    List.ne_nil_of_mem ((mem_jsValues_freqFold logs _ hls).mpr ⟨a, ha, rfl⟩)
  refine ⟨((jsValues (freqFold logs)).filterMap numOf).foldl Nat.max 0, ?_, hbound, ?_⟩
  · rw [maxFreqOf, mathMax, if_neg (by rw [hany]; exact Bool.false_ne_true),
      if_neg hvne]
  · rcases foldl_max_eq_or_mem ((jsValues (freqFold logs)).filterMap numOf) 0 with h0 | hmem
    · exfalso
      have h1 : 0 < logs.count a := List.count_pos_iff.mpr ha
      have h2 := hbound a ha
      omega
    · obtain ⟨v, hv, hnum⟩ := List.mem_filterMap.mp hmem
      obtain ⟨c₀, hc₀, rfl⟩ := (mem_jsValues_freqFold logs v hls).mp hv
      refine ⟨c₀, hc₀, ?_⟩
      simpa [numOf] using hnum

theorem mem_winnersOf (logs : List JStr) (c : JStr) (hne : logs ≠ [])
    (hls : ∀ x, x ∈ logs → protoLookup x = none) :
    c ∈ winnersOf logs ↔
      c ∈ logs ∧ ∀ c₂, c₂ ∈ logs → logs.count c₂ ≤ logs.count c := by
  obtain ⟨M, hM, hbound, c₀, hc₀, hc₀M⟩ := maxFreqOf_num logs hne hls
  constructor
  · intro h
    rw [winnersOf, List.mem_filter] at h
    obtain ⟨hk, hp⟩ := h
    have hcl : c ∈ logs := by
      rw [mem_jsKeys, mem_keysList_freqFold logs c hls] at hk
      exact hk
    rw [jsGet_freqFold logs c hls, if_pos hcl, hM] at hp
    have hceq : logs.count c = M := by
      simpa [strictEqMax] using hp
    exact ⟨hcl, fun c₂ hc₂ => hceq ▸ hbound c₂ hc₂⟩
  · rintro ⟨hcl, hmax⟩
    have hceq : logs.count c = M :=
      Nat.le_antisymm (hbound c hcl) (hc₀M ▸ hmax c₀ hc₀)
    rw [winnersOf, List.mem_filter]
    refine ⟨?_, ?_⟩
    · rw [mem_jsKeys, mem_keysList_freqFold logs c hls]
      exact hcl
    · rw [jsGet_freqFold logs c hls, if_pos hcl, hM]
      simp [strictEqMax, hceq]

theorem nodup_winnersOf (logs : List JStr)
    (hls : ∀ x, x ∈ logs → protoLookup x = none) :
    (winnersOf logs).Nodup := by
  have h1 : (jsKeys (freqFold logs)).Nodup := by
    rw [(jsKeys_perm (freqFold logs)).nodup_iff, keysList_freqFold logs hls]
    exact firstOccur_nodup logs
  exact h1.filter _

theorem winnersOf_ne_nil (logs : List JStr) (hne : logs ≠ [])
    (hls : ∀ x, x ∈ logs → protoLookup x = none) :
    winnersOf logs ≠ [] := by
  obtain ⟨M, hM, hbound, c₀, hc₀, hc₀M⟩ := maxFreqOf_num logs hne hls
  have : c₀ ∈ winnersOf logs := by
    rw [mem_winnersOf logs c₀ hne hls]
    exact ⟨hc₀, fun c₂ hc₂ => hc₀M ▸ hbound c₂ hc₂⟩
  exact List.ne_nil_of_mem this

theorem count_le_maxCount (logs : List JStr) (c : JStr) (hc : c ∈ logs) :
    logs.count c ≤ maxCount logs :=
  mem_le_foldl_max _ _ _ (List.mem_map_of_mem _ hc)

theorem maxCount_attained (logs : List JStr) (hne : logs ≠ []) :
    ∃ c₀, c₀ ∈ logs ∧ logs.count c₀ = maxCount logs := by
  obtain ⟨a, ha⟩ : ∃ a, a ∈ logs := by
    cases logs with
    | nil => exact absurd rfl hne
    | cons x xs => exact ⟨x, List.mem_cons_self _ _⟩
  rcases foldl_max_eq_or_mem (logs.map (fun c => logs.count c)) 0 with h0 | hmem
  · have h1 : 0 < logs.count a := List.count_pos_iff.mpr ha
    have h2 := count_le_maxCount logs a ha
    rw [maxCount] at h2
    omega
  · obtain ⟨c₀, hc₀, heq⟩ := List.mem_map.mp hmem
    exact ⟨c₀, hc₀, heq⟩

theorem jsKeys_freqFold_of_no_index (logs : List JStr)
    (hls : ∀ x, x ∈ logs → protoLookup x = none)
    (hidx : ∀ c, c ∈ logs → isArrayIndexKey c = false) :
    jsKeys (freqFold logs) = firstOccur logs := by
  rw [jsKeys, keysList_freqFold logs hls]
  have h1 : (firstOccur logs).filter (fun k => isArrayIndexKey k) = [] := by
    rw [List.filter_eq_nil_iff]
    intro k hk
    rw [hidx k ((firstOccur_mem logs k).mp hk)]
    exact Bool.false_ne_true
  have h2 : (firstOccur logs).filter (fun k => !isArrayIndexKey k) = firstOccur logs := by
    rw [List.filter_eq_self]
    intro k hk
    rw [hidx k ((firstOccur_mem logs k).mp hk)]
    rfl
  rw [h1, h2]
  rfl

theorem winnersOf_eq_specWinners (logs : List JStr) (hne : logs ≠ [])
    (hls : ∀ x, x ∈ logs → protoLookup x = none)
    (hidx : ∀ c, c ∈ logs → isArrayIndexKey c = false) :
    winnersOf logs = specWinners logs := by
  obtain ⟨M, hM, hbound, c₁, hc₁, hc₁M⟩ := maxFreqOf_num logs hne hls
  obtain ⟨c₂, hc₂, hc₂M⟩ := maxCount_attained logs hne
  have hMM : M = maxCount logs :=
    Nat.le_antisymm (hc₁M ▸ count_le_maxCount logs c₁ hc₁) (hc₂M ▸ hbound c₂ hc₂)
  rw [winnersOf, specWinners, jsKeys_freqFold_of_no_index logs hls hidx]
  apply List.filter_congr
  intro c hc
  have hcl : c ∈ logs := (firstOccur_mem logs c).mp hc
  rw [jsGet_freqFold logs c hls, if_pos hcl, hM, hMM]
  simp [strictEqMax]

theorem analyzeLogs_own (m : JsObj (List JStr)) (d : JStr) (logs : List JStr)
    (hget : jsGet m d = some logs) (hne : logs ≠ []) :
    analyzeLogs m d = Except.ok (some (winnersOf logs)) := by
  simp only [analyzeLogs, jsRead, hget]
  rw [if_neg hne]

/-! ## Lemmas about the CSV parser -/

theorem csvStep_of_none (m : JsObj (List JStr)) (line : JStr)
    (h : lineRecord line = none) : csvStep m line = Except.ok m := by
  rw [csvStep, h]

theorem csvStep_of_some (m : JsObj (List JStr)) (line : JStr) (c ts : JStr)
    (h : lineRecord line = some (c, ts)) (hp : protoLookup (dateOf ts) = none) :
    ∃ m₂, csvStep m line = Except.ok m₂ ∧ ∀ d,
      jsGet m₂ d =
        if d = dateOf ts then some ((jsGet m (dateOf ts)).getD [] ++ [c])
        else jsGet m d := by
  cases hv : jsGet m (dateOf ts) with
  | some b =>
      refine ⟨jsSet m (dateOf ts) (b ++ [c]), ?_, ?_⟩
      · simp only [csvStep, h, jsRead, hv]
      · intro d
        rw [jsGet_jsSet]
        by_cases hd : d = dateOf ts
        · rw [if_pos hd, if_pos hd]
          rfl
        · rw [if_neg hd, if_neg hd]
  | none =>
      refine ⟨jsSet (jsSet m (dateOf ts) []) (dateOf ts) ([] ++ [c]), ?_, ?_⟩
      · simp only [csvStep, h, jsRead, hv, hp]
      · intro d
        rw [jsGet_jsSet]
        by_cases hd : d = dateOf ts
        · rw [if_pos hd, if_pos hd]
          rfl
        · rw [if_neg hd, if_neg hd, jsGet_jsSet, if_neg hd]

theorem csvFold_ok (ls : List JStr) :
    ∀ m : JsObj (List JStr),
      (∀ line, line ∈ ls → lineDateSafe line = true) →
      ∃ m₂, csvFold ls m = Except.ok m₂ ∧ ∀ d,
        jsGet m₂ d =
          if bucketSpec ls d = [] then jsGet m d
          else some ((jsGet m d).getD [] ++ bucketSpec ls d) := by
  induction ls with
  | nil =>
      intro m _
      exact ⟨m, rfl, fun d => by simp [bucketSpec]⟩
  | cons line ls ih =>
      intro m hdates
      cases hrec : lineRecord line with
      | none =>
          obtain ⟨m₂, hfold, hchar⟩ :=
            ih m (fun l hl => hdates l (List.mem_cons_of_mem _ hl))
          refine ⟨m₂, ?_, ?_⟩
          · simp only [csvFold, csvStep_of_none m line hrec]
            exact hfold
          · intro d
            have hbs : bucketSpec (line :: ls) d = bucketSpec ls d := by
              simp [bucketSpec, hrec]
            rw [hbs]
            exact hchar d
      | some p =>
          obtain ⟨c, ts⟩ := p
          have hp : protoLookup (dateOf ts) = none := by
            have hsafe := hdates line (List.mem_cons_self _ _)
            simp only [lineDateSafe, hrec] at hsafe
            exact of_decide_eq_true hsafe
          obtain ⟨m₁, hstep, hchar₁⟩ := csvStep_of_some m line c ts hrec hp
          obtain ⟨m₂, hfold, hchar₂⟩ :=
            ih m₁ (fun l hl => hdates l (List.mem_cons_of_mem _ hl))
          refine ⟨m₂, ?_, ?_⟩
          · simp only [csvFold, hstep]
            exact hfold
          · intro d
            rw [hchar₂ d]
            by_cases hd : d = dateOf ts
            · subst hd
              rw [hchar₁ (dateOf ts), if_pos rfl]
              have hbs : bucketSpec (line :: ls) (dateOf ts) =
                  c :: bucketSpec ls (dateOf ts) := by
                simp [bucketSpec, hrec]
              rw [hbs]
              by_cases hbl : bucketSpec ls (dateOf ts) = []
              · simp [hbl]
              · simp [hbl]
            · rw [hchar₁ d, if_neg hd]
              have hd' : ¬dateOf ts = d := fun he => hd he.symm
              have hbs : bucketSpec (line :: ls) d = bucketSpec ls d := by
                simp [bucketSpec, hrec, hd']
              rw [hbs]

theorem parseCsvLines_ok (lines : List JStr)
    (hdates : ∀ line, line ∈ lines.drop 1 → lineDateSafe line = true) :
    ∃ mp, parseCsvLines lines = Except.ok mp ∧ ∀ d,
      jsGet mp d =
        if bucketSpec (lines.drop 1) d = [] then none
        else some (bucketSpec (lines.drop 1) d) := by
  obtain ⟨mp, hfold, hchar⟩ := csvFold_ok (lines.drop 1) [] hdates
  refine ⟨mp, hfold, fun d => ?_⟩
  rw [hchar d]
  simp [jsGet]

theorem csvFold_append (l1 l2 : List JStr) :
    ∀ m : JsObj (List JStr),
      csvFold (l1 ++ l2) m =
        match csvFold l1 m with
        | Except.error e => Except.error e
        | Except.ok m₂ => csvFold l2 m₂ := by
  induction l1 with
  | nil => intro m; rfl
  | cons line l1 ih =>
      intro m
      simp only [List.cons_append, csvFold]
      cases csvStep m line with
      | error e => rfl
      | ok m₂ => exact ih m₂

/-! ## Lemmas about splitting -/

theorem jsSplitGo_of_not_mem (sep : Char) :
    ∀ (s acc : JStr), sep ∉ s → jsSplitGo sep s acc = [acc.reverse ++ s] := by
  intro s
  induction s with
  | nil => intro acc _; simp [jsSplitGo]
  | cons c cs ih =>
      intro acc h
      have hc : ¬c = sep := fun he => h (he ▸ List.mem_cons_self c cs)
      have hcs : sep ∉ cs := fun hm => h (List.mem_cons_of_mem c hm)
      rw [jsSplitGo, if_neg hc, ih (c :: acc) hcs]
      simp

theorem jsSplit_of_not_mem (sep : Char) (s : JStr) (h : sep ∉ s) :
    jsSplit sep s = [s] := by
  rw [jsSplit, jsSplitGo_of_not_mem sep s [] h]
  rfl

theorem jsSplitGo_append (sep : Char) :
    ∀ (p : JStr) (t acc : JStr), sep ∉ p →
      jsSplitGo sep (p ++ sep :: t) acc = (acc.reverse ++ p) :: jsSplit sep t := by
  intro p
  induction p with
  | nil =>
      intro t acc _
      rw [List.nil_append, jsSplitGo, if_pos rfl]
      simp [jsSplit]
  | cons c p ih =>
      intro t acc h
      have hc : ¬c = sep := fun he => h (he ▸ List.mem_cons_self c p)
      have hp : sep ∉ p := fun hm => h (List.mem_cons_of_mem c hm)
      rw [List.cons_append, jsSplitGo, if_neg hc, ih t (c :: acc) hp]
      simp

theorem jsSplit_append (sep : Char) (p t : JStr) (hp : sep ∉ p) :
    jsSplit sep (p ++ sep :: t) = p :: jsSplit sep t := by
  rw [jsSplit, jsSplitGo_append sep p t [] hp]
  rfl

theorem dateOf_of_no_sep (ts : JStr) (h : 'T' ∉ ts) : dateOf ts = ts := by
  rw [dateOf, jsSplit_of_not_mem 'T' ts h]
  rfl

theorem dateOf_append (p t : JStr) (hp : 'T' ∉ p) :
    dateOf (p ++ 'T' :: t) = p := by
  rw [dateOf, jsSplit_append 'T' p t hp]
  rfl

theorem lineRecord_of_split (line c ts : JStr) (more : List JStr)
    (h : jsSplit ',' line = c :: ts :: more) (hc0 : c ≠ []) (hts0 : ts ≠ []) :
    lineRecord line = some (c, ts) := by
  rw [lineRecord, h]
  simp [hc0, hts0]

theorem lineRecord_pair (c ts : JStr) (hc : ',' ∉ c) (hts : ',' ∉ ts)
    (hc0 : c ≠ []) (hts0 : ts ≠ []) :
    lineRecord (c ++ ',' :: ts) = some (c, ts) := by
  have hsplit : jsSplit ',' (c ++ ',' :: ts) = [c, ts] := by
    rw [jsSplit_append ',' c ts hc, jsSplit_of_not_mem ',' ts hts]
  exact lineRecord_of_split _ c ts [] hsplit hc0 hts0

/-! ## Lemmas about argument parsing -/

theorem parseArgStep_fileName (m : ArgMap) (pair : List JStr) :
    (parseArgStep m pair).fileName =
      if pair.headD [] = "-f".data then (pair.drop 1).head? else m.fileName := by
  rw [parseArgStep]
  by_cases h1 : pair.headD [] = "-f".data
  · rw [if_pos h1, if_pos h1]
  · rw [if_neg h1, if_neg h1]
    by_cases h2 : pair.headD [] = "-d".data
    · rw [if_pos h2]
    · rw [if_neg h2]

theorem parseArgStep_timeStamp (m : ArgMap) (pair : List JStr) :
    (parseArgStep m pair).timeStamp =
      if pair.headD [] = "-d".data then (pair.drop 1).head? else m.timeStamp := by
  rw [parseArgStep]
  by_cases h1 : pair.headD [] = "-f".data
  · have h2 : ¬pair.headD [] = "-d".data := by
      rw [h1]
      decide
    rw [if_pos h1, if_neg h2]
  · rw [if_neg h1]
    by_cases h2 : pair.headD [] = "-d".data
    · rw [if_pos h2, if_pos h2]
    · rw [if_neg h2, if_neg h2]

theorem foldl_parseArgStep_fileName (pairs : List (List JStr)) :
    ∀ m : ArgMap,
      (pairs.foldl parseArgStep m).fileName =
        ((pairs.reverse.find? (fun p => decide (p.headD [] = "-f".data))).map
          (fun p => (p.drop 1).head?)).getD m.fileName := by
  induction pairs using List.reverseRecOn with
  | nil => intro m; rfl
  | append_singleton l p ih =>
      intro m
      rw [List.foldl_append, List.foldl_cons, List.foldl_nil, parseArgStep_fileName,
        List.reverse_append]
      simp only [List.reverse_cons, List.reverse_nil, List.nil_append, List.singleton_append]
      by_cases hf : p.headD [] = "-f".data
      · rw [if_pos hf, List.find?_cons_of_pos _ (by simp only [decide_eq_true_eq]; exact hf)]
        rfl
      · rw [if_neg hf, List.find?_cons_of_neg _ (by simp only [decide_eq_true_eq]; exact hf), ih]

theorem foldl_parseArgStep_timeStamp (pairs : List (List JStr)) :
    ∀ m : ArgMap,
      (pairs.foldl parseArgStep m).timeStamp =
        ((pairs.reverse.find? (fun p => decide (p.headD [] = "-d".data))).map
          (fun p => (p.drop 1).head?)).getD m.timeStamp := by
  induction pairs using List.reverseRecOn with
  | nil => intro m; rfl
  | append_singleton l p ih =>
      intro m
      rw [List.foldl_append, List.foldl_cons, List.foldl_nil, parseArgStep_timeStamp,
        List.reverse_append]
      simp only [List.reverse_cons, List.reverse_nil, List.nil_append, List.singleton_append]
      by_cases hd : p.headD [] = "-d".data
      · rw [if_pos hd, List.find?_cons_of_pos _ (by simp only [decide_eq_true_eq]; exact hd)]
        rfl
      · rw [if_neg hd, List.find?_cons_of_neg _ (by simp only [decide_eq_true_eq]; exact hd), ih]

theorem parseArguments_fileName (args : List JStr) :
    (parseArguments args).fileName = lastValueFor "-f".data (chunk args 2) := by
  rw [parseArguments, foldl_parseArgStep_fileName, lastValueFor]
  cases (chunk args 2).reverse.find? (fun p => decide (p.headD [] = "-f".data)) with
  | none => rfl
  | some p => rfl

theorem parseArguments_timeStamp (args : List JStr) :
    (parseArguments args).timeStamp = lastValueFor "-d".data (chunk args 2) := by
  rw [parseArguments, foldl_parseArgStep_timeStamp, lastValueFor]
  cases (chunk args 2).reverse.find? (fun p => decide (p.headD [] = "-d".data)) with
  | none => rfl
  | some p => rfl

theorem chunk_cons_cons (a b : α) (rest : List α) :
    chunk (a :: b :: rest) 2 = [a, b] :: chunk rest 2 := by
  simp [chunk]

/-! ## Claim theorems -/

/-- C1 counterexample: for the reachable bucket containing only the
cookieId "constructor", the inherited `Object` function poisons the
count (`fn + 1` is a string), `Math.max` is NaN and the strict-equality
filter returns the empty winners list, so the cookieId with the maximal
count is not included — the claim as stated (for every DateBucketMap)
is false. -/
theorem analyzeLogs_winners_counterexample :
    analyzeLogs [("2018-12-09".data, ["constructor".data])] "2018-12-09".data =
      Except.ok (some ([] : List JStr)) ∧
    "constructor".data ∈ ["constructor".data] ∧
    (∀ c₂, c₂ ∈ ["constructor".data] →
      List.count c₂ ["constructor".data] ≤
        List.count "constructor".data ["constructor".data]) ∧
    "constructor".data ∉ ([] : List JStr) :=
  ⟨by decide, by decide, by decide, by decide⟩

/-- C1 (amended): for every DateBucketMap and every query date whose
bucket is present and non-empty, provided no cookieId in the bucket
names an inherited `Object.prototype` member, the ranker returns exactly
the set of distinct cookieIds whose occurrence count equals the maximum
(no lower-count cookieId included, every maximal one included, no
duplicates), and the result depends only on the queried date's bucket,
so it is unchanged under any permutation or modification of records
belonging to other dates. -/
theorem analyzeLogs_winners_exact (m : JsObj (List JStr)) (d : JStr) (logs : List JStr)
    (hget : jsGet m d = some logs) (hne : logs ≠ [])
    (hproto : ∀ c, c ∈ logs → protoLookup c = none) :
    ∃ w, analyzeLogs m d = Except.ok (some w) ∧ w.Nodup ∧
      (∀ c, c ∈ w ↔ c ∈ logs ∧ ∀ c₂, c₂ ∈ logs → logs.count c₂ ≤ logs.count c) ∧
      (∀ m₂ : JsObj (List JStr), jsGet m₂ d = some logs →
        analyzeLogs m₂ d = analyzeLogs m d) := by
  refine ⟨winnersOf logs, analyzeLogs_own m d logs hget hne,
    nodup_winnersOf logs hproto, fun c => mem_winnersOf logs c hne hproto, ?_⟩
  intro m₂ hm₂
  rw [analyzeLogs_own m₂ d logs hm₂ hne, analyzeLogs_own m d logs hget hne]

/-- Witness for the amended C1 at a concrete bucket map. -/
theorem analyzeLogs_winners_exact_witness :
    jsGet ([("2018-12-09".data, [['A'], ['B'], ['A']])] : JsObj (List JStr))
        "2018-12-09".data = some [['A'], ['B'], ['A']] ∧
    ([['A'], ['B'], ['A']] : List JStr) ≠ [] ∧
    (∀ c, c ∈ ([['A'], ['B'], ['A']] : List JStr) → protoLookup c = none) ∧
    ∃ w, analyzeLogs [("2018-12-09".data, [['A'], ['B'], ['A']])] "2018-12-09".data =
        Except.ok (some w) ∧
      w.Nodup ∧
      (∀ c, c ∈ w ↔ c ∈ ([['A'], ['B'], ['A']] : List JStr) ∧
        ∀ c₂, c₂ ∈ ([['A'], ['B'], ['A']] : List JStr) →
          List.count c₂ [['A'], ['B'], ['A']] ≤ List.count c [['A'], ['B'], ['A']]) ∧
      (∀ m₂ : JsObj (List JStr), jsGet m₂ "2018-12-09".data = some [['A'], ['B'], ['A']] →
        analyzeLogs m₂ "2018-12-09".data =
          analyzeLogs [("2018-12-09".data, [['A'], ['B'], ['A']])] "2018-12-09".data) :=
  ⟨by decide, by decide, by decide,
    analyzeLogs_winners_exact _ _ _ (by decide) (by decide) (by decide)⟩

/-- C2 counterexample: with the numeric cookieIds "2" and "1"
(array-index property keys), the code returns the tied winners in
ascending numeric key-enumeration order, not in first-occurrence order,
so the claim as stated (for every possible cookieId string) is false. -/
theorem analyzeLogs_order_counterexample :
    analyzeLogs [("2018-12-09".data, [['2'], ['1'], ['2'], ['1']])] "2018-12-09".data =
      Except.ok (some [['1'], ['2']]) ∧
    specWinners [['2'], ['1'], ['2'], ['1']] = [['2'], ['1']] ∧
    ([['1'], ['2']] : List JStr) ≠ [['2'], ['1']] :=
  ⟨by decide, by decide, by decide⟩

/-- C2 (amended): for every non-empty bucket none of whose cookieIds is
an array-index string (a canonical decimal numeral below 2^32 - 1) or an
inherited `Object.prototype` member name, the ranker returns all tied
maximal cookieIds in first-occurrence order within the date's sequence;
array-index cookieIds are instead enumerated first in ascending numeric
order by JS object key ordering, and a cookieId naming an inherited
member poisons `Math.max` and empties the winners. -/
theorem analyzeLogs_first_occurrence_order (m : JsObj (List JStr)) (d : JStr)
    (logs : List JStr) (hget : jsGet m d = some logs) (hne : logs ≠ [])
    (hproto : ∀ c, c ∈ logs → protoLookup c = none)
    (hidx : ∀ c, c ∈ logs → isArrayIndexKey c = false) :
    analyzeLogs m d = Except.ok (some (specWinners logs)) := by
  rw [analyzeLogs_own m d logs hget hne,
    winnersOf_eq_specWinners logs hne hproto hidx]

/-- Witness for the amended C2 at a concrete tied bucket. -/
theorem analyzeLogs_first_occurrence_order_witness :
    analyzeLogs [("2018-12-09".data, [['B'], ['A'], ['B'], ['A']])] "2018-12-09".data =
      Except.ok (some (specWinners [['B'], ['A'], ['B'], ['A']])) ∧
    specWinners [['B'], ['A'], ['B'], ['A']] = [['B'], ['A']] :=
  ⟨analyzeLogs_first_occurrence_order _ _ _ (by decide) (by decide) (by decide)
      (by decide),
    by decide⟩

/-- C3 counterexample: querying the absent date "constructor" reads the
inherited `Object` function (truthy, length 1) and the `for...of` loop
throws TypeError instead of signalling no-data; and on the bucket
containing only the cookieId "constructor" the no-data signal is not
raised yet the returned winners list is empty — both directions of the
claim as stated are false. -/
theorem analyzeLogs_no_data_counterexample :
    analyzeLogs ([] : JsObj (List JStr)) "constructor".data =
      Except.error JsCrash.typeError ∧
    analyzeLogs [("2018-12-09".data, ["constructor".data])] "2018-12-09".data =
      Except.ok (some ([] : List JStr)) :=
  ⟨by decide, by decide⟩

/-- C3 (amended): if the bucket for the query date is absent — the date
naming no inherited `Object.prototype` member — or is an empty sequence,
the ranker returns the distinct no-data signal (not an empty winners
list) and the run prints only the guidance message; an absent date
naming an inherited arity-0 function member (toString, toLocaleString,
valueOf) also yields the no-data signal; conversely, whenever the signal
is not raised and the ranker returns winners for a bucket none of whose
cookieIds names an inherited member, the winners sequence is non-empty
and is exactly what is printed. -/
theorem analyzeLogs_no_data (m : JsObj (List JStr)) (d : JStr) :
    ((jsGet m d = none ∧ protoLookup d = none) ∨ jsGet m d = some [] →
      analyzeLogs m d = Except.ok none ∧
      findMostUsedCookie m d = Except.ok [noDataMessage]) ∧
    (∀ name, jsGet m d = none → protoLookup d = some (ProtoMember.fn name 0) →
      analyzeLogs m d = Except.ok none ∧
      findMostUsedCookie m d = Except.ok [noDataMessage]) ∧
    (∀ logs w, jsGet m d = some logs → (∀ c, c ∈ logs → protoLookup c = none) →
      analyzeLogs m d = Except.ok (some w) →
      w ≠ [] ∧ findMostUsedCookie m d = Except.ok w) := by
  refine ⟨?_, ?_, ?_⟩
  · rintro (⟨h1, h2⟩ | h)
    · constructor
      · simp [analyzeLogs, jsRead, h1, h2]
      · simp [findMostUsedCookie, analyzeLogs, jsRead, h1, h2]
    · constructor
      · simp [analyzeLogs, jsRead, h]
      · simp [findMostUsedCookie, analyzeLogs, jsRead, h]
  · intro name h1 h2
    constructor
    · simp [analyzeLogs, jsRead, h1, h2]
    · simp [findMostUsedCookie, analyzeLogs, jsRead, h1, h2]
  · intro logs w hget hproto hw
    by_cases hne : logs = []
    · rw [hne] at hget
      simp [analyzeLogs, jsRead, hget] at hw
    · have ha : analyzeLogs m d = Except.ok (some (winnersOf logs)) :=
        analyzeLogs_own m d logs hget hne
      rw [ha] at hw
      have hww : winnersOf logs = w := by
        simpa using hw
      subst hww
      refine ⟨winnersOf_ne_nil logs hne hproto, ?_⟩
      simp [findMostUsedCookie, ha]

/-- Witness for the amended C3 at a concrete empty map and at a concrete
non-empty bucket. -/
theorem analyzeLogs_no_data_witness :
    (analyzeLogs ([] : JsObj (List JStr)) "2018-12-09".data = Except.ok none ∧
      findMostUsedCookie ([] : JsObj (List JStr)) "2018-12-09".data =
        Except.ok [noDataMessage]) ∧
    (([['A']] : List JStr) ≠ [] ∧
      findMostUsedCookie [("2018-12-09".data, [['A']])] "2018-12-09".data =
        Except.ok [['A']]) :=
  ⟨(analyzeLogs_no_data [] "2018-12-09".data).1 (Or.inl ⟨by decide, by decide⟩),
    (analyzeLogs_no_data [("2018-12-09".data, [['A']])] "2018-12-09".data).2.2
      [['A']] [['A']] (by decide) (by decide) (by decide)⟩

/-- C4: a data line that does not yield two non-empty positional fields
(missing separator, empty cookieId, or empty timestamp) contributes
nothing to any bucket: parsing the line sequence with and without such a
line yields the same result — the `continue` fires before any object
operation, so this holds whether the rest of the parse succeeds or
throws. -/
theorem parseCsvLines_malformed_dropped (pre post : List JStr) (bad : JStr)
    (hpre : pre ≠ []) (hbad : lineRecord bad = none) :
    parseCsvLines (pre ++ bad :: post) = parseCsvLines (pre ++ post) := by
  cases pre with
  | nil => exact absurd rfl hpre
  | cons h0 pre =>
      rw [parseCsvLines, parseCsvLines]
      simp only [List.cons_append, List.drop_succ_cons, List.drop_zero]
      rw [csvFold_append pre (bad :: post), csvFold_append pre post]
      cases csvFold pre ([] : JsObj (List JStr)) with
      | error e => rfl
      | ok m₂ =>
          simp only [csvFold, csvStep_of_none m₂ bad hbad]

/-- Witness for C4: a line with an empty cookieId is dropped. -/
theorem parseCsvLines_malformed_dropped_witness :
    (["cookie,timestamp".data] : List JStr) ≠ [] ∧
    lineRecord ",2018-12-09T10:13:00+00:00".data = none ∧
    parseCsvLines ["cookie,timestamp".data, ",2018-12-09T10:13:00+00:00".data,
        "a,2018-12-09T10:13:00+00:00".data] =
      parseCsvLines ["cookie,timestamp".data, "a,2018-12-09T10:13:00+00:00".data] :=
  ⟨by decide, by decide,
    parseCsvLines_malformed_dropped ["cookie,timestamp".data]
      ["a,2018-12-09T10:13:00+00:00".data] ",2018-12-09T10:13:00+00:00".data
      (by decide) (by decide)⟩

/-- C5: the first line of the (trimmed, newline-split) content is never
parsed into a record: the parser folds only over the lines after index
0, so replacing the header by any other line — even one shaped like a
valid record — leaves the result unchanged, and a header-only input
produces the empty DateBucketMap. -/
theorem parseCsvLines_header_skipped (content : JStr) (h₁ h₂ : JStr) (rest : List JStr) :
    parseFileContent content = parseCsvLines (jsSplit (Char.ofNat 10) (jsTrim content)) ∧
    parseCsvLines (h₁ :: rest) = parseCsvLines (h₂ :: rest) ∧
    parseCsvLines [h₁] = Except.ok [] :=
  ⟨rfl, rfl, rfl⟩

/-- C6 counterexample: the surviving line a,constructor derives the
date key "constructor", whose inherited read is truthy: the array is
never created, `.push` throws TypeError and the parse aborts — the
cookieId is not appended to any bucket, refuting the claim as stated. -/
theorem parseCsvLines_bucketing_counterexample :
    lineRecord "a,constructor".data = some ("a".data, "constructor".data) ∧
    dateOf "constructor".data = "constructor".data ∧
    parseCsvLines ["cookie,timestamp".data, "a,constructor".data] =
      Except.error JsCrash.typeError :=
  ⟨by decide, by decide, by decide⟩

/-- C6 (amended): provided no surviving data line's derived date names
an inherited `Object.prototype` member, the parse succeeds and each
date's bucket contains exactly the cookieIds of the surviving data lines
whose timestamp's prefix before the first date/time separator equals
that date, in input order, the bucket existing exactly when that
sequence is non-empty (created on first encounter); the derived date key
is the substring of the timestamp before the separator, so timestamps
sharing a calendar-date prefix but differing in time-of-day or offset
map to the same bucket key.  A surviving line whose derived date names
an inherited member instead aborts the parse with a TypeError. -/
theorem parseCsvLines_bucketing (lines : List JStr) (p t : JStr)
    (hdates : ∀ line, line ∈ lines.drop 1 → lineDateSafe line = true)
    (hp : 'T' ∉ p) :
    (∃ mp, parseCsvLines lines = Except.ok mp ∧ ∀ d,
      jsGet mp d =
        if bucketSpec (lines.drop 1) d = [] then none
        else some (bucketSpec (lines.drop 1) d)) ∧
    dateOf (p ++ 'T' :: t) = p :=
  ⟨parseCsvLines_ok lines hdates, dateOf_append p t hp⟩

/-- Witness for the amended C6: two same-date timestamps with different
times and offsets land in the same bucket. -/
theorem parseCsvLines_bucketing_witness :
    (∃ mp, parseCsvLines ["cookie,timestamp".data, "A,2018-12-09T14:19:00+00:00".data,
        "B,2018-12-09T22:30:00+01:00".data] = Except.ok mp ∧ ∀ d,
      jsGet mp d =
        if bucketSpec (["cookie,timestamp".data, "A,2018-12-09T14:19:00+00:00".data,
            "B,2018-12-09T22:30:00+01:00".data].drop 1) d = [] then none
        else some (bucketSpec (["cookie,timestamp".data,
            "A,2018-12-09T14:19:00+00:00".data,
            "B,2018-12-09T22:30:00+01:00".data].drop 1) d)) ∧
    dateOf ("2018-12-09".data ++ 'T' :: "14:19:00+00:00".data) = "2018-12-09".data :=
  parseCsvLines_bucketing _ "2018-12-09".data "14:19:00+00:00".data
    (by decide) (by decide)

/-- C7 counterexample: with a non-csv extension and query date
"constructor", the base adapter yields the empty map, but the lookup
reads the inherited `Object` function (truthy, length 1) and the run
crashes with TypeError — no guidance message, non-zero exit — refuting
"for every query date". -/
theorem mainDispatch_unknown_extension_counterexample :
    getFileExtension "log.txt".data ≠ "csv".data ∧
    mainDispatch "log.txt".data "cookie,timestamp".data "constructor".data =
      Except.error JsCrash.typeError :=
  ⟨by decide, by decide⟩

/-- C7 (amended): for every file whose lowercased extension is not csv,
the dispatched adapter is the base no-op parser producing an empty
DateBucketMap, so for every content and every query date that either
names no inherited `Object.prototype` member or names an inherited
arity-0 function member (toString, toLocaleString, valueOf), the run
prints only the no-data guidance message, no cookie lines, and exits
with success status 0; the remaining inherited-member dates instead
crash with TypeError. -/
theorem mainDispatch_unknown_extension (fileName content d : JStr)
    (hext : getFileExtension fileName ≠ "csv".data)
    (hd : protoLookup d = none ∨ ∃ name, protoLookup d = some (ProtoMember.fn name 0)) :
    mainDispatch fileName content d = Except.ok ([noDataMessage], 0) := by
  rw [mainDispatch, if_neg hext]
  rcases hd with h | ⟨name, h⟩
  · simp [findMostUsedCookie, analyzeLogs, jsRead, jsGet, baseParseFileContent, h]
  · simp [findMostUsedCookie, analyzeLogs, jsRead, jsGet, baseParseFileContent, h]

/-- Witness for the amended C7 at a concrete non-csv file name. -/
theorem mainDispatch_unknown_extension_witness :
    getFileExtension "log.txt".data ≠ "csv".data ∧
    mainDispatch "log.txt".data
        "cookie,timestamp\nA,2018-12-09T14:19:00+00:00".data "2018-12-09".data =
      Except.ok ([noDataMessage], 0) :=
  ⟨by decide, mainDispatch_unknown_extension _ _ _ (by decide) (Or.inl (by decide))⟩

/-- C8: on a read failure the catch block prints the line containing the
offending path, but the caught exception is bound as e while the code
reads error.message, an unbound identifier: the run crashes with a
ReferenceError, so the underlying system error message is never written
to the error stream and the clean exit(1) path is unreachable (the
process still dies with a non-zero status, via the uncaught exception). -/
theorem retrieveFileContent_message_lost (fileName msg : JStr)
    (h : msg ≠ cannotReadMsg fileName) :
    retrieveFileContent fileName (Except.error msg) =
      RetrieveOutcome.refErrorCrash [cannotReadMsg fileName] ∧
    (∀ code stderr, retrieveFileContent fileName (Except.error msg) ≠
      RetrieveOutcome.cleanExit code stderr) ∧
    msg ∉ [cannotReadMsg fileName] := by
  refine ⟨rfl, ?_, ?_⟩
  · intro code stderr hcontra
    simp [retrieveFileContent] at hcontra
  · simp [h]

/-- Witness for C8 at a concrete path and system message. -/
theorem retrieveFileContent_message_lost_witness :
    retrieveFileContent "nosuch.csv".data
        (Except.error "ENOENT: no such file or directory".data) =
      RetrieveOutcome.refErrorCrash [cannotReadMsg "nosuch.csv".data] ∧
    (∀ code stderr, retrieveFileContent "nosuch.csv".data
        (Except.error "ENOENT: no such file or directory".data) ≠
      RetrieveOutcome.cleanExit code stderr) ∧
    "ENOENT: no such file or directory".data ∉ [cannotReadMsg "nosuch.csv".data] :=
  retrieveFileContent_message_lost "nosuch.csv".data
    "ENOENT: no such file or directory".data (by decide)

/-- C9 counterexample: the line a,xyz (no date/time separator in the
timestamp) survives and is bucketed under the key xyz, but querying xyz
does not return its cookie among the winners, because another cookie in
the same bucket has a strictly higher count. -/
theorem parseCsvLines_no_sep_counterexample :
    lineRecord "a,xyz".data = some ("a".data, "xyz".data) ∧
    'T' ∉ "xyz".data ∧
    parseCsvLines ["cookie,timestamp".data, "a,xyz".data, "b,xyz".data,
        "b,xyz".data] =
      Except.ok [("xyz".data, ["a".data, "b".data, "b".data])] ∧
    analyzeLogs [("xyz".data, ["a".data, "b".data, "b".data])] "xyz".data =
      Except.ok (some ["b".data]) ∧
    "a".data ∉ (["b".data] : List JStr) :=
  ⟨by decide, by decide, by decide, by decide, by decide⟩

/-- C9 (amended): a data line whose first two fields are non-empty and
whose timestamp contains no date/time separator is not dropped: provided
no surviving line's derived date names an inherited `Object.prototype`
member (else the parse throws), its cookieId is bucketed under the
entire timestamp string as the date key, and querying that exact string
returns that cookie among the winners whenever no cookieId in that
bucket names an inherited member and the cookie's occurrence count in
that bucket is maximal.  The line may carry extra comma-separated fields
beyond the first two; they are ignored. -/
theorem parseCsvLines_no_sep_bucketed (pre post : List JStr) (c ts suffix : JStr)
    (hpre : pre ≠ []) (hc : ',' ∉ c) (hts : ',' ∉ ts)
    (hc0 : c ≠ []) (hts0 : ts ≠ []) (hT : 'T' ∉ ts)
    (hsuf : suffix = [] ∨ ∃ r, suffix = ',' :: r)
    (hdates : ∀ line, line ∈ (pre ++ (c ++ ',' :: (ts ++ suffix)) :: post).drop 1 →
      lineDateSafe line = true) :
    ∃ mp b, parseCsvLines (pre ++ (c ++ ',' :: (ts ++ suffix)) :: post) =
        Except.ok mp ∧
      jsGet mp ts = some b ∧ c ∈ b ∧
      ((∀ c₂, c₂ ∈ b → protoLookup c₂ = none) →
        (∀ c₂, c₂ ∈ b → b.count c₂ ≤ b.count c) →
        ∃ w, analyzeLogs mp ts = Except.ok (some w) ∧ c ∈ w) := by
  have hline : lineRecord (c ++ ',' :: (ts ++ suffix)) = some (c, ts) := by
    rcases hsuf with rfl | ⟨r, rfl⟩
    · rw [List.append_nil]
      exact lineRecord_pair c ts hc hts hc0 hts0
    · have hsplit : jsSplit ',' (c ++ ',' :: (ts ++ ',' :: r)) =
          c :: ts :: jsSplit ',' r := by
        rw [jsSplit_append ',' c (ts ++ ',' :: r) hc, jsSplit_append ',' ts r hts]
      exact lineRecord_of_split _ c ts _ hsplit hc0 hts0
  have hdate : dateOf ts = ts := dateOf_of_no_sep ts hT
  cases pre with
  | nil => exact absurd rfl hpre
  | cons h0 pre =>
      obtain ⟨mp, hok, hchar⟩ :=
        parseCsvLines_ok ((h0 :: pre) ++ (c ++ ',' :: (ts ++ suffix)) :: post) hdates
      have hdrop : ((h0 :: pre) ++ (c ++ ',' :: (ts ++ suffix)) :: post).drop 1 =
          pre ++ (c ++ ',' :: (ts ++ suffix)) :: post := by
        simp
      have hcb : c ∈ bucketSpec (pre ++ (c ++ ',' :: (ts ++ suffix)) :: post) ts := by
        rw [bucketSpec, List.filterMap_append]
        apply List.mem_append_right
        simp only [List.filterMap_cons, hline, hdate, if_pos rfl]
        exact List.mem_cons_self _ _
      have hbne : bucketSpec (pre ++ (c ++ ',' :: (ts ++ suffix)) :: post) ts ≠ [] :=
        List.ne_nil_of_mem hcb
      have hget : jsGet mp ts =
          some (bucketSpec (pre ++ (c ++ ',' :: (ts ++ suffix)) :: post) ts) := by
        rw [hchar ts, hdrop, if_neg hbne]
      refine ⟨mp, bucketSpec (pre ++ (c ++ ',' :: (ts ++ suffix)) :: post) ts,
        hok, hget, hcb, ?_⟩
      intro hbp hmax
      refine ⟨winnersOf (bucketSpec (pre ++ (c ++ ',' :: (ts ++ suffix)) :: post) ts),
        analyzeLogs_own mp ts _ hget hbne, ?_⟩
      exact (mem_winnersOf _ c hbne hbp).mpr ⟨hcb, hmax⟩

/-- Witness for the amended C9 at a concrete separator-free timestamp. -/
theorem parseCsvLines_no_sep_bucketed_witness :
    ∃ mp b, parseCsvLines (["cookie,timestamp".data] ++
        ("a".data ++ ',' :: ("xyz".data ++ [])) :: []) = Except.ok mp ∧
      jsGet mp "xyz".data = some b ∧ "a".data ∈ b ∧
      ((∀ c₂, c₂ ∈ b → protoLookup c₂ = none) →
        (∀ c₂, c₂ ∈ b → b.count c₂ ≤ b.count "a".data) →
        ∃ w, analyzeLogs mp "xyz".data = Except.ok (some w) ∧ "a".data ∈ w) :=
  parseCsvLines_no_sep_bucketed ["cookie,timestamp".data] [] "a".data "xyz".data []
    (by decide) (by decide) (by decide) (by decide) (by decide) (by decide)
    (Or.inl rfl) (by decide)

/-- C10: command-line arguments are paired strictly by position (the
chunking groups the element at even index with the one following it);
each tracked field of the argument map equals the value of the last pair
whose flag matches (-f for fileName, -d for timeStamp), so pairs with
any other flag leave both fields alone and a repeated flag keeps only
its last occurrence. -/
theorem parseArguments_pairing (args : List JStr) :
    (parseArguments args).fileName = lastValueFor "-f".data (chunk args 2) ∧
    (parseArguments args).timeStamp = lastValueFor "-d".data (chunk args 2) ∧
    ∀ (a b : JStr) (rest : List JStr), chunk (a :: b :: rest) 2 = [a, b] :: chunk rest 2 :=
  ⟨parseArguments_fileName args, parseArguments_timeStamp args,
    fun a b rest => chunk_cons_cons a b rest⟩
